import Mathlib

/-!
Shallow embedding of `py2puml/puml_generator.py` (PlantUML script generator)
and proofs about it.

Modelling conventions:
* Python values that flow through `and`/`or` chains keep their Python
  truthiness: `PyVal` distinguishes `None`, booleans and strings, and
  `pyTruthy` is Python truthiness.
* The `ConfigParser` object is external; a present configuration is modelled
  as the record of values the accessors read from it (each `get`/`getboolean`
  with its fallback already resolved).  An absent configuration is
  `Option.none`, exactly as `config=None` in the constructor.
* Fallible code (`list.pop(0)` on an empty list, `assert`) is modelled with
  `Option`: `Option.none` is the raised exception.
* `astor.to_source` on an `ast.arguments` node is modelled by
  `renderArguments`, following astor's `visit_arguments`
  (positional args zipped with left-padded defaults, `*vararg`, a bare `*`
  before keyword-only args, keyword-only args zipped with their defaults,
  `**kwarg`); `ast.arg` nodes render as `name` or `name: annot`.
* Emitted text is modelled per `output(*args)` call: one string, the
  arguments joined by single spaces, as `print` does.
-/

namespace Py2Puml

/-- A Python value as it flows out of the option accessors: `None`, a bool
from `getboolean`, or a string from `get`. -/
inductive PyVal where
  | pyNone : PyVal
  | pyBool : Bool → PyVal
  | pyStr : String → PyVal
deriving DecidableEq, Repr

/-- Python truthiness of a `PyVal` (`None` falsy, strings falsy iff empty). -/
def pyTruthy : PyVal → Bool
  | PyVal.pyNone => false
  | PyVal.pyBool b => b
  | PyVal.pyStr s => !(s == "")

/-- The two configuration sections the generator passes to its accessors:
the Python strings `'methods'` and `'module'`. -/
inductive CfgSection where
  | methodsSection : CfgSection
  | moduleSection : CfgSection
deriving DecidableEq, Repr

/-- A present `ConfigParser`: the values each accessor's `get`/`getboolean`
call yields (fallback already applied).  Field order: prolog, epilog,
write_globals, omit_self, write_arg_list (methods, module),
omit_defaults (methods, module), built_in_types (methods, module). -/
structure Config where
  prolog : String
  epilog : String
  write_globals : Bool
  omit_self : Bool
  write_arg_list_methods : Bool
  write_arg_list_module : Bool
  omit_defaults_methods : Bool
  omit_defaults_module : Bool
  built_in_types_methods : List String
  built_in_types_module : List String
deriving DecidableEq, Repr

/-- `opt_prolog`: `self.config and self.config.get('puml','prolog',fallback='')`.
With `config=None` the Python `and` short-circuits to `None`. -/
def opt_prolog : Option Config → PyVal
  | Option.none => PyVal.pyNone
  | some c => PyVal.pyStr c.prolog

/-- `opt_epilog`: `self.config and self.config.get('puml','epilog',fallback='')`. -/
def opt_epilog : Option Config → PyVal
  | Option.none => PyVal.pyNone
  | some c => PyVal.pyStr c.epilog

/-- `opt_globals`: `self.config and self.config.getboolean('module','write-globals',fallback=False)`. -/
def opt_globals : Option Config → PyVal
  | Option.none => PyVal.pyNone
  | some c => PyVal.pyBool c.write_globals

/-- `opt_omit_self`: `self.config and self.config.getboolean('methods','omit-self',fallback=False)`. -/
def opt_omit_self : Option Config → PyVal
  | Option.none => PyVal.pyNone
  | some c => PyVal.pyBool c.omit_self

/-- `opt_write_arglist(section)`:
`not self.config or self.config.getboolean(section,'write-arg-list',fallback=True)`.
Always a real bool. -/
def opt_write_arglist (cfg : Option Config) (sec : CfgSection) : Bool :=
  match cfg with
  | Option.none => true
  | some c =>
    match sec with
    | CfgSection.methodsSection => c.write_arg_list_methods
    | CfgSection.moduleSection => c.write_arg_list_module

/-- `opt_omit_defaults(section)`:
`self.config and self.config.getboolean(section,'omit-defaults',fallback=False)`. -/
def opt_omit_defaults (cfg : Option Config) (sec : CfgSection) : PyVal :=
  match cfg with
  | Option.none => PyVal.pyNone
  | some c =>
    match sec with
    | CfgSection.methodsSection => PyVal.pyBool c.omit_defaults_methods
    | CfgSection.moduleSection => PyVal.pyBool c.omit_defaults_module

/-- `opt_builtin_types(section)`: returns `[]` when `config` is `None`, else
`eval(self.config.get(section,'built-in-types',fallback="[]"))`, modelled as
the resolved list. -/
def opt_builtin_types (cfg : Option Config) (sec : CfgSection) : List String :=
  match cfg with
  | Option.none => []
  | some c =>
    match sec with
    | CfgSection.methodsSection => c.built_in_types_methods
    | CfgSection.moduleSection => c.built_in_types_module

/-- An `ast.arg` node: parameter name and optional annotation text
(the annotation as astor would render it). -/
structure Arg where
  arg : String
  annot : Option String
deriving DecidableEq, Repr

/-- An `ast.arguments` node, fields in ast order. -/
structure Arguments where
  args : List Arg
  vararg : Option Arg
  kwonlyargs : List Arg
  kw_defaults : List (Option String)
  kwarg : Option Arg
  defaults : List String
deriving DecidableEq, Repr

/-- A decorator node: an `ast.Name` (with its `id`) or an `ast.Attribute`
(with its `attr` tail). -/
inductive Decorator where
  | name : String → Decorator
  | attribute : String → Decorator
deriving DecidableEq, Repr

/-- A function/method definition node as the generator reads it. -/
structure MethodDescriptor where
  name : String
  decorator_list : List Decorator
  args : Arguments
  returns : Option String
deriving DecidableEq, Repr

/-- `is_static_method`: some decorator is an `ast.Name` whose id is exactly
`staticmethod` (the Python function returns `True` or `None`; it is only
used in boolean positions, so a `Bool` is faithful). -/
def is_static_method (meth : MethodDescriptor) : Bool :=
  meth.decorator_list.any fun d =>
    match d with
    | Decorator.name id => id == "staticmethod"
    | Decorator.attribute _ => false

/-- `has_decorator(meth, name)`: substring match on a Name's id or an
Attribute's attr tail. -/
def has_decorator (meth : MethodDescriptor) (nm : String) : Bool :=
  meth.decorator_list.any fun d =>
    match d with
    | Decorator.name id => (id.splitOn nm).length > 1 || id == nm
    | Decorator.attribute at_ => (at_.splitOn nm).length > 1 || at_ == nm

/-- astor's rendering of an `ast.arg`: the name, then `: annotation`. -/
def renderArg (a : Arg) : String :=
  a.arg ++ (match a.annot with
    | some t => ": " ++ t
    | Option.none => "")

/-- astor's rendering of one parameter with an optional default (`=` glued,
as `conditional_write('=', default)` does). -/
def renderArgDef (a : Arg) (dflt : Option String) : String :=
  renderArg a ++ (match dflt with
    | some v => "=" ++ v
    | Option.none => "")

/-- astor's left padding of a defaults list to the length of the matching
parameter list (`[None] * (len(args) - len(defaults)) + defaults`). -/
def padNone (n : Nat) (ds : List (Option String)) : List (Option String) :=
  List.replicate (n - ds.length) Option.none ++ ds

/-- The comma-separated join astor produces (separator `, `). -/
def joinComma : List String → String
  | [] => ""
  | [s] => s
  | s :: rest => s ++ ", " ++ joinComma rest

/-- `astor.to_source` on an `ast.arguments` node, following astor's
`visit_arguments`. -/
def renderArguments (node : Arguments) : String :=
  let posPieces := (node.args.zip (padNone node.args.length (node.defaults.map some))).map
    (fun p => renderArgDef p.1 p.2)
  let varPieces := match node.vararg with
    | some a => ["*" ++ renderArg a]
    | Option.none => []
  let starPieces := if !node.kwonlyargs.isEmpty && node.vararg.isNone then ["*"] else []
  let kwPieces := (node.kwonlyargs.zip (padNone node.kwonlyargs.length node.kw_defaults)).map
    (fun p => renderArgDef p.1 p.2)
  let kwargPieces := match node.kwarg with
    | some a => ["**" ++ renderArg a]
    | Option.none => []
  joinComma (posPieces ++ varPieces ++ starPieces ++ kwPieces ++ kwargPieces)

/-- Python's `str.rstrip()`: drop trailing whitespace. -/
def rstrip (s : String) : String :=
  String.mk ((s.data.reverse.dropWhile Char.isWhitespace).reverse)

/-- The section string `arglist` picks: `'methods' if ismethod else 'module'`. -/
def sectOf (ismethod : Bool) : CfgSection :=
  if ismethod then CfgSection.methodsSection else CfgSection.moduleSection

/-- `copy.deepcopy` of a pure `Arguments` value. -/
def deepcopyArguments (a : Arguments) : Arguments := a

/-- `arglist(fdef, ismethod)`.  The result is `Option.none` when the Python
code raises (`args.args.pop(0)` on an empty parameter list); otherwise it is
`some` of the rendered string paired with the descriptor as observable after
the call (the code mutates only the `deepcopy`, never `fdef`). -/
def arglist (cfg : Option Config) (fdef : MethodDescriptor) (ismethod : Bool) :
    Option (String × MethodDescriptor) :=
  let sec := sectOf ismethod
  if opt_write_arglist cfg sec = false then some ("", fdef)
  else
    let args0 := deepcopyArguments fdef.args
    if ismethod && pyTruthy (opt_omit_self cfg) && !(is_static_method fdef) then
      match args0.args with
      | [] => Option.none
      | _self_arg :: rest =>
        let args1 : Arguments :=
          ⟨rest, args0.vararg, args0.kwonlyargs, args0.kw_defaults, args0.kwarg, args0.defaults⟩
        let args2 : Arguments :=
          if pyTruthy (opt_omit_defaults cfg sec) then
            ⟨args1.args, args1.vararg, args1.kwonlyargs, [], args1.kwarg, []⟩
          else args1
        some (rstrip (renderArguments args2), fdef)
    else
      let args2 : Arguments :=
        if pyTruthy (opt_omit_defaults cfg sec) then
          ⟨args0.args, args0.vararg, args0.kwonlyargs, [], args0.kwarg, []⟩
        else args0
      some (rstrip (renderArguments args2), fdef)

/-- A class as `print_classinfo` reads it for kind/edge purposes:
its name and the `astor.to_source(base).rstrip()` text of each base. -/
structure ClassDescr where
  classname : String
  bases : List String
deriving DecidableEq, Repr

/-- `expr.split('.')[-1]`: the last dotted segment of a rendered base, i.e.
everything after the last `.` (the whole string when no dot occurs). -/
def lastSeg (s : String) : String :=
  String.mk ((s.data.reverse.takeWhile (fun c => !(c == '.'))).reverse)

/-- One iteration of the base loop in `print_classinfo`: the running block
keyword and the inheritance edges appended so far. -/
def baseStep (classname : String) (acc : String × List (String × String)) (expr : String) :
    String × List (String × String) :=
  if expr == "object" then acc
  else if expr == "ABC" then ("abstract class", acc.2)
  else if expr == "Enum" then ("enum", acc.2)
  else (acc.1, acc.2 ++ [(lastSeg expr, classname)])

/-- The base loop of `print_classinfo`: block keyword before the
interface-name check, plus the inheritance edges it appends. -/
def processBases (classname : String) (bases : List String) : String × List (String × String) :=
  bases.foldl (baseStep classname) ("class", [])

/-- The keyword-only projection of one base-loop iteration. -/
def baseStepKind (p : String) (expr : String) : String :=
  if expr == "object" then p
  else if expr == "ABC" then "abstract class"
  else if expr == "Enum" then "enum"
  else p

/-- The block keyword `print_classinfo` emits: the base loop's keyword,
overridden to `interface` when `classinfo.classname[0] == 'I'`. -/
def classBlockKind (classname : String) (bases : List String) : String :=
  let p := (processBases classname bases).1
  if classname.front == 'I' then "interface" else p

/-- Keyword characterization written from the amended claim: the last base
rendering to the marker `ABC` or `Enum` decides between `abstract class` and
`enum` (no marker base: `class`), and an `I`-initial name forces
`interface`. -/
def classBlockKindSpec (classname : String) (bases : List String) : String :=
  if classname.front == 'I' then "interface"
  else
    match (bases.filter (fun b => b == "ABC" || b == "Enum")).getLast? with
    | some b => if b == "ABC" then "abstract class" else "enum"
    | Option.none => "class"

/-- A namespace open/close marker as `push_ns`/`pop_ns` emit it:
`namespace <name> {` carries the segment name, `}` closes. -/
inductive NsMarker where
  | nsOpen : String → NsMarker
  | nsClose : NsMarker
deriving DecidableEq, Repr

/-- The common-path loop of `PUML_Generator_NS.start_file`: how many leading
segments of the open stack agree with the new decomposition. -/
def commonLen : List String → List String → Nat
  | [], _ => 0
  | _ :: _, [] => 0
  | d :: ds, x :: xs => if d == x then commonLen ds xs + 1 else 0

/-- `pop_ns(count)`: pop the innermost namespace and emit one closing marker,
`count` times. -/
def popNs : Nat → List String → List String × List NsMarker
  | 0, ns => (ns, [])
  | k + 1, ns =>
    let r := popNs k ns.dropLast
    (r.1, NsMarker.nsClose :: r.2)

/-- The `push_ns` loop tail of `start_file`: emit one opening marker and
append the segment, for each remaining segment in order. -/
def pushNsAll : List String → List String → List String × List NsMarker
  | [], ns => (ns, [])
  | d :: ds, ns =>
    let r := pushNsAll ds (ns ++ [d])
    (r.1, NsMarker.nsOpen d :: r.2)

/-- `PUML_Generator_NS.start_file` on an already-decomposed path: new stack
and the markers emitted, from the current stack. -/
def start_file_ns (ns : List String) (segs : List String) : List String × List NsMarker :=
  let n := commonLen ns segs
  let r1 := popNs (ns.length - n) ns
  let r2 := pushNsAll (segs.drop n) r1.1
  (r2.1, r1.2 ++ r2.2)

/-- One processed file in a run: fold `start_file` over the stack,
accumulating emitted markers. -/
def stepFile (acc : List String × List NsMarker) (segs : List String) :
    List String × List NsMarker :=
  let r := start_file_ns acc.1 segs
  (r.1, acc.2 ++ r.2)

/-- A whole sequence of `start_file` calls from a fresh generator. -/
def runNS (files : List (List String)) : List String × List NsMarker :=
  files.foldl stepFile ([], [])

/-- A full run: all `start_file` calls, then `PUML_Generator_NS.footer`
closing every namespace still open. -/
def fullRunMarkers (files : List (List String)) : List NsMarker :=
  let r := runNS files
  r.2 ++ (popNs r.1.length r.1).2

/-- Is a marker an opening marker? -/
def isOpenMarker : NsMarker → Bool
  | NsMarker.nsOpen _ => true
  | NsMarker.nsClose => false

/-- Number of opening markers in a marker stream. -/
def countOpen (ms : List NsMarker) : Nat :=
  (ms.filter isOpenMarker).length

/-- Number of closing markers in a marker stream. -/
def countClose (ms : List NsMarker) : Nat :=
  (ms.filter (fun m => !isOpenMarker m)).length

/-- An event of a namespaced run, as the claims observe it: entering a new
source file (already decomposed), or rendering a class. -/
inductive GenEvent where
  | startFile : List String → GenEvent
  | printClass : ClassDescr → GenEvent
deriving DecidableEq, Repr

/-- The run-scoped mutable state of `PUML_Generator_NS`: the open namespace
stack, the `class_in_module` dict (newest entry first, first match wins, as
a Python dict lookup) and the `inherit_relations` list. -/
structure GenState where
  namespaces : List String
  class_in_module : List (String × String)
  inherit_relations : List (String × String)
deriving DecidableEq, Repr

/-- Python dict assignment `m[k] = v` (newest binding shadows older ones). -/
def dinsert (k v : String) (m : List (String × String)) : List (String × String) :=
  (k, v) :: m

/-- Python dict lookup: `m[k]` when `k in m`, else absent. -/
def dlookup (k : String) (m : List (String × String)) : Option String :=
  (m.find? (fun p => p.1 == k)).map (fun p => p.2)

/-- The `full_ns` accumulation in `PUML_Generator_NS.print_classinfo`:
each open segment followed by a dot. -/
def fullNs (ns : List String) : String :=
  ns.foldl (fun acc n => acc ++ n ++ ".") ""

/-- One event against the generator state: `start_file` replaces the stack
per the common-path logic; `print_classinfo` records the class's namespace
qualification and appends the inheritance edges of its bases. -/
def stepEvent (st : GenState) (e : GenEvent) : GenState :=
  match e with
  | GenEvent.startFile segs =>
    ⟨(start_file_ns st.namespaces segs).1, st.class_in_module, st.inherit_relations⟩
  | GenEvent.printClass c =>
    ⟨st.namespaces,
      dinsert c.classname (fullNs st.namespaces) st.class_in_module,
      st.inherit_relations ++ (processBases c.classname c.bases).2⟩

/-- The state of a fresh generator. -/
def initState : GenState := ⟨[], [], []⟩

/-- The generator state after a sequence of events. -/
def runState (es : List GenEvent) : GenState :=
  es.foldl stepEvent initState

/-- The inheritance-relation lines `footer` emits, one per recorded edge:
each endpoint prefixed with its `class_in_module` entry when present, the
three `output` arguments joined by single spaces. -/
def footerInheritLines (st : GenState) : List String :=
  st.inherit_relations.map (fun bd =>
    let fmt_base := match dlookup bd.1 st.class_in_module with
      | some q => q ++ bd.1
      | Option.none => bd.1
    let fmt_derived := match dlookup bd.2 st.class_in_module with
      | some q => q ++ bd.2
      | Option.none => bd.2
    fmt_base ++ " <|-- " ++ fmt_derived)

/-- Endpoint qualification written from the spec: qualify with the mapped
namespace text when the name is a known class, else leave it alone. -/
def qualifySpec (m : List (String × String)) (nm : String) : String :=
  match dlookup nm m with
  | some q => q ++ nm
  | Option.none => nm

/-- A module scope (`codeinfo`) as `print_codeinfo` reads it (`vars` models
the `variables` attribute, whose name is a Lean keyword). -/
structure CodeInfo where
  vars : List String
  functions : List MethodDescriptor
deriving DecidableEq, Repr

/-- Modelled from the spec: `codeinfo.visibility` lives in `ast_visitor.py`,
which is not part of the rendering source; spec section 4.2 fixes it as the
leading-underscore convention (none: `+`, one: `#`, two or more: `-`). -/
def visibilityOf (nm : String) : String :=
  if nm.startsWith "__" then "-"
  else if nm.startsWith "_" then "#"
  else "+"

/-- The `TAB` indentation unit. -/
def TAB : String := "  "

/-- `print_codeinfo`: asserts `opt_globals()` (a falsy value raises, giving
`Option.none`), then emits the synthetic module block; each function line
calls `arglist(fdef)` whose exception would propagate. -/
def print_codeinfo (cfg : Option Config) (ci : CodeInfo) : Option (List String) :=
  if pyTruthy (opt_globals cfg) = false then Option.none
  else
    (ci.functions.mapM (fun fdef =>
      (arglist cfg fdef false).map (fun r =>
        TAB ++ visibilityOf fdef.name ++ fdef.name ++ "(" ++ r.1 ++ ")"))).map
      (fun funLines =>
        ["class __module__ \x7b"]
        ++ ci.vars.map (fun nm => TAB ++ visibilityOf nm ++ nm)
        ++ funLines
        ++ ["\x7d\n"])

lemma baseStep_fst (cn : String) (acc : String × List (String × String)) (b : String) :
    (baseStep cn acc b).1 = baseStepKind acc.1 b := by
  by_cases h1 : (b == "object") = true
  · simp [baseStep, baseStepKind, h1]
  · by_cases h2 : (b == "ABC") = true
    · simp [baseStep, baseStepKind, h1, h2]
    · by_cases h3 : (b == "Enum") = true
      · simp [baseStep, baseStepKind, h1, h2, h3]
      · simp [baseStep, baseStepKind, h1, h2, h3]

lemma foldl_baseStep_fst :
    ∀ (bs : List String) (cn p : String) (es : List (String × String)),
      (bs.foldl (baseStep cn) (p, es)).1 = bs.foldl baseStepKind p := by
  intro bs
  induction bs with
  | nil => intro cn p es; rfl
  | cons b bs ih =>
    intro cn p es
    simp only [List.foldl_cons]
    calc (bs.foldl (baseStep cn) (baseStep cn (p, es) b)).1
        = bs.foldl baseStepKind (baseStep cn (p, es) b).1 := by
          have h := ih cn (baseStep cn (p, es) b).1 (baseStep cn (p, es) b).2
          simpa using h
      _ = bs.foldl baseStepKind (baseStepKind p b) := by rw [baseStep_fst]

lemma foldl_baseStepKind_eq (bs : List String) :
    bs.foldl baseStepKind "class" =
      (match (bs.filter (fun b => b == "ABC" || b == "Enum")).getLast? with
        | some b => if b == "ABC" then "abstract class" else "enum"
        | Option.none => "class") := by
  induction bs using List.reverseRecOn with
  | nil => rfl
  | append_singleton l a ih =>
    rw [List.foldl_append, List.filter_append]
    by_cases h2 : (a == "ABC") = true
    · have hm : (List.filter (fun b => b == "ABC" || b == "Enum") [a]) = [a] := by
        simp [List.filter, h2]
      rw [hm]
      have hobj : (a == "object") = false := by
        have ha : a = "ABC" := eq_of_beq h2
        subst ha
        decide
      simp [baseStepKind, hobj, h2, List.getLast?_concat]
    · by_cases h3 : (a == "Enum") = true
      · have hm : (List.filter (fun b => b == "ABC" || b == "Enum") [a]) = [a] := by
          simp [List.filter, h2, h3]
        rw [hm]
        have hobj : (a == "object") = false := by
          have ha : a = "Enum" := eq_of_beq h3
          subst ha
          decide
        simp [baseStepKind, hobj, h2, h3, List.getLast?_concat]
      · have hm : (List.filter (fun b => b == "ABC" || b == "Enum") [a]) = [] := by
          simp [List.filter, h2, h3]
        rw [hm, List.append_nil]
        rw [← ih]
        by_cases h1 : (a == "object") = true
        · simp [List.foldl_cons, baseStepKind, h1]
        · simp [List.foldl_cons, baseStepKind, h1, h2, h3]

/-- Claim C1 as stated is false at the class `A(ABC, Enum)`: the base `ABC`
occurs among the bases and the class name does not start with `I`, yet the
emitted block keyword is `enum`, not `abstract class`: the later `Enum`
marker base overwrites the earlier choice. -/
theorem classinfo_kind_claim_false :
    ¬ (∀ (classname : String) (bases : List String), classname ≠ "" →
        classname.front ≠ 'I' → "ABC" ∈ bases →
        classBlockKind classname bases = "abstract class") := by
  intro h
  have hc := h "A" ["ABC", "Enum"] (by decide) (by decide) (by decide)
  exact absurd hc (by decide)

/-- Claim C1 (amended): the block keyword is `class` when no base renders to
a marker (`ABC`/`Enum`), otherwise it is decided by the last marker base in
declared order (`abstract class` for `ABC`, `enum` for `Enum`, the later
marker winning when both occur), and a class name starting with `I` forces
`interface` regardless of the bases. -/
theorem classinfo_block_kind_characterization :
    ∀ (classname : String) (bases : List String), classname ≠ "" →
      classBlockKind classname bases = classBlockKindSpec classname bases := by
  intro cn bs hcn
  unfold classBlockKind classBlockKindSpec processBases
  rw [foldl_baseStep_fst bs cn "class" [], foldl_baseStepKind_eq bs]

/-- Witness for the amended C1 at concrete classes. -/
theorem classinfo_block_kind_characterization_witness :
    ("IFoo" ≠ "" ∧ classBlockKind "IFoo" ["ABC"] = classBlockKindSpec "IFoo" ["ABC"]) ∧
    ("A" ≠ "" ∧ classBlockKind "A" ["object", "Base", "Enum", "ABC"] =
      classBlockKindSpec "A" ["object", "Base", "Enum", "ABC"]) :=
  ⟨⟨by decide, classinfo_block_kind_characterization "IFoo" ["ABC"] (by decide)⟩,
   ⟨by decide, classinfo_block_kind_characterization "A" ["object", "Base", "Enum", "ABC"]
      (by decide)⟩⟩

/-- Claim C2: after any run, `footer` emits one `base <|-- derived` line per
recorded inheritance edge, each endpoint qualified through the
`class_in_module` map as it stands at footer time (so qualification recorded
after the edge applies retroactively), and an endpoint that is not a key of
the map is left unqualified. -/
theorem footer_qualifies_edges_with_final_map :
    ∀ es : List GenEvent,
      footerInheritLines (runState es) =
        (runState es).inherit_relations.map (fun bd =>
          qualifySpec (runState es).class_in_module bd.1 ++ " <|-- " ++
            qualifySpec (runState es).class_in_module bd.2) ∧
      (∀ nm, dlookup nm (runState es).class_in_module = Option.none →
        qualifySpec (runState es).class_in_module nm = nm) := by
  intro es
  constructor
  · rfl
  · intro nm h
    simp [qualifySpec, h]

/-- The run exercised by the C2 witness: the edge `Foo <|-- Bar` is recorded
before `Foo` is rendered inside namespace `pkg`. -/
def witnessEvents : List GenEvent :=
  [GenEvent.printClass ⟨"Bar", ["Foo"]⟩,
   GenEvent.startFile ["pkg"],
   GenEvent.printClass ⟨"Foo", []⟩]

/-- Witness for C2: the qualification of `Foo`, recorded after the edge, is
applied at footer time, and the unknown name `Baz` stays unqualified. -/
theorem footer_qualifies_edges_witness :
    footerInheritLines (runState witnessEvents) = ["pkg.Foo <|-- Bar"] ∧
    qualifySpec (runState witnessEvents).class_in_module "Baz" = "Baz" :=
  ⟨by decide,
   (footer_qualifies_edges_with_final_map witnessEvents).2 "Baz" (by decide)⟩

/-- Claim C8 as stated is false: with no configuration, `opt_prolog` returns
Python `None` (the short-circuited `self.config and ...`), which is not the
empty string. -/
theorem opt_prolog_none_not_empty_string :
    opt_prolog Option.none = PyVal.pyNone ∧ PyVal.pyNone ≠ PyVal.pyStr "" :=
  ⟨rfl, by decide⟩

/-- Claim C8 (amended): constructed with no configuration source,
`opt_write_arglist` returns `True` and `opt_builtin_types` the empty list,
while `opt_globals`, `opt_omit_self`, `opt_omit_defaults`, `opt_prolog` and
`opt_epilog` return Python `None` — a falsy value, so each option behaves as
its documented default, but not the values `False`/empty string the claim
names. -/
theorem options_no_config_defaults :
    opt_globals Option.none = PyVal.pyNone ∧
    opt_omit_self Option.none = PyVal.pyNone ∧
    (∀ sec, opt_omit_defaults Option.none sec = PyVal.pyNone) ∧
    (∀ sec, opt_write_arglist Option.none sec = true) ∧
    (∀ sec, opt_builtin_types Option.none sec = []) ∧
    opt_prolog Option.none = PyVal.pyNone ∧
    opt_epilog Option.none = PyVal.pyNone ∧
    pyTruthy PyVal.pyNone = false :=
  ⟨rfl, rfl, fun _ => rfl, fun _ => rfl, fun _ => rfl, rfl, rfl, rfl⟩

/-- Claim C7: a call to `arglist` that returns leaves the original
descriptor unchanged — the code mutates only the `copy.deepcopy` of
`fdef.args`, never `fdef` itself. -/
theorem arglist_preserves_descriptor :
    ∀ (cfg : Option Config) (fdef : MethodDescriptor) (ismethod : Bool)
      (r : String × MethodDescriptor),
      arglist cfg fdef ismethod = some r → r.2 = fdef := by
  intro cfg fdef m r h
  cases hw : opt_write_arglist cfg (sectOf m) <;>
    cases m <;>
      cases hts : pyTruthy (opt_omit_self cfg) <;>
        cases hst : is_static_method fdef <;>
          cases hargs : fdef.args.args <;>
            simp [arglist, deepcopyArguments, hw, hts, hst, hargs] at h <;>
              exact (congrArg Prod.snd h).symm

/-- A one-parameter `ast.arguments` node for the concrete witnesses. -/
def argNodeX : Arguments :=
  ⟨[⟨"x", Option.none⟩], Option.none, [], [], Option.none, []⟩

/-- A plain one-parameter function for the concrete witnesses. -/
def funX : MethodDescriptor := ⟨"f", [], argNodeX, Option.none⟩

/-- Witness for C7: the no-config call on `funX` renders `x` and returns the
untouched descriptor. -/
theorem arglist_preserves_descriptor_witness :
    arglist Option.none funX false = some ("x", funX) ∧
    (("x", funX) : String × MethodDescriptor).2 = funX :=
  ⟨by decide, arglist_preserves_descriptor Option.none funX false ("x", funX) (by decide)⟩

/-- A configuration with omit-self enabled but argument lists disabled for
methods, for the C9 counterexample. -/
def cfgNoArglist : Config := ⟨"", "", false, true, false, true, false, false, [], []⟩

/-- A parameterless, undecorated method for the C9 counterexample. -/
def funNoArgs : MethodDescriptor :=
  ⟨"m", [], ⟨[], Option.none, [], [], Option.none, []⟩, Option.none⟩

/-- Claim C9 as stated is false: with `methods.write-arg-list` disabled the
call returns the empty string before ever reaching `pop(0)`, even though
omit-self is enabled, the method is not static and its parameter list is
empty. -/
theorem arglist_partiality_claim_false :
    ¬ (∀ (c : Config) (fdef : MethodDescriptor),
        pyTruthy (opt_omit_self (some c)) = true →
        is_static_method fdef = false →
        fdef.args.args = [] →
        arglist (some c) fdef true = Option.none) := by
  intro h
  exact absurd (h cfgNoArglist funNoArgs (by decide) (by decide) (by decide)) (by decide)

/-- Claim C9 (amended): `arglist` fails exactly when the argument list is
actually rendered (`write-arg-list` enabled for the section), the call is a
method call, omit-self is enabled, the method carries no exact
`staticmethod` decorator, and the parameter list is empty — then `pop(0)`
raises; in every other case it is total, so totality needs the precondition
that every non-static method has a parameter when omit-self is enabled and
argument lists are rendered. -/
theorem arglist_none_iff :
    ∀ (cfg : Option Config) (fdef : MethodDescriptor) (ismethod : Bool),
      arglist cfg fdef ismethod = Option.none ↔
        (opt_write_arglist cfg (sectOf ismethod) = true ∧ ismethod = true ∧
          pyTruthy (opt_omit_self cfg) = true ∧ is_static_method fdef = false ∧
          fdef.args.args = []) := by
  intro cfg fdef m
  cases hw : opt_write_arglist cfg (sectOf m) <;>
    cases m <;>
      cases hts : pyTruthy (opt_omit_self cfg) <;>
        cases hst : is_static_method fdef <;>
          cases hargs : fdef.args.args <;>
            simp [arglist, deepcopyArguments, hw, hts, hst, hargs]

/-- Replace only the `omit_self` flag of a configuration. -/
def setOmitSelf (c : Config) (b : Bool) : Config :=
  ⟨c.prolog, c.epilog, c.write_globals, b, c.write_arg_list_methods, c.write_arg_list_module,
    c.omit_defaults_methods, c.omit_defaults_module, c.built_in_types_methods,
    c.built_in_types_module⟩

/-- Claim C5: on a method carrying an exact `staticmethod` decorator,
`arglist(-, ismethod=True)` with omit-self enabled renders exactly what it
renders with omit-self disabled — the first-parameter drop never applies to
a static method, so no parameter is dropped. -/
theorem arglist_static_omit_self_no_drop :
    ∀ (c : Config) (fdef : MethodDescriptor),
      c.omit_self = true →
      is_static_method fdef = true →
      arglist (some c) fdef true = arglist (some (setOmitSelf c false)) fdef true := by
  intro c fdef hos hst
  simp [arglist, setOmitSelf, opt_omit_self, opt_write_arglist, opt_omit_defaults, sectOf, hst]

/-- A configuration with omit-self enabled and everything else at its
default, for the C5 witness. -/
def cfgOmitSelf : Config := ⟨"", "", false, true, true, true, false, false, [], []⟩

/-- A static one-parameter method for the C5 witness. -/
def funStatic : MethodDescriptor :=
  ⟨"s", [Decorator.name "staticmethod"], argNodeX, Option.none⟩

/-- Witness for C5 at a concrete static method and configuration. -/
theorem arglist_static_omit_self_no_drop_witness :
    cfgOmitSelf.omit_self = true ∧ is_static_method funStatic = true ∧
    arglist (some cfgOmitSelf) funStatic true =
      arglist (some (setOmitSelf cfgOmitSelf false)) funStatic true :=
  ⟨rfl, by decide, arglist_static_omit_self_no_drop cfgOmitSelf funStatic rfl (by decide)⟩

lemma arglist_isSome_of_not_method (cfg : Option Config) (fdef : MethodDescriptor) :
    (arglist cfg fdef false).isSome = true := by
  cases hw : opt_write_arglist cfg (sectOf false) <;>
    simp [arglist, deepcopyArguments, hw]

lemma mapM_option_isSome {α β : Type} (f : α → Option β) :
    ∀ l : List α, (∀ a ∈ l, (f a).isSome = true) → (l.mapM f).isSome = true := by
  intro l
  induction l with
  | nil => intro _; rfl
  | cons a l ih =>
    intro h
    obtain ⟨b, hb⟩ := Option.isSome_iff_exists.mp (h a (List.mem_cons_self a l))
    obtain ⟨bs, hbs⟩ := Option.isSome_iff_exists.mp (ih fun x hx => h x (List.mem_cons_of_mem a hx))
    rw [List.mapM_cons, hb, hbs]
    rfl

/-- Claim C10: `print_codeinfo` asserts `opt_globals()` first, so with the
globals option falsy (in particular with no configuration) it raises instead
of emitting the module block, and with the option truthy the assertion
passes and the block is emitted. -/
theorem print_codeinfo_requires_globals :
    (∀ (cfg : Option Config) (ci : CodeInfo),
      pyTruthy (opt_globals cfg) = false → print_codeinfo cfg ci = Option.none) ∧
    (∀ (cfg : Option Config) (ci : CodeInfo),
      pyTruthy (opt_globals cfg) = true → (print_codeinfo cfg ci).isSome = true) := by
  constructor
  · intro cfg ci h
    simp [print_codeinfo, h]
  · intro cfg ci h
    unfold print_codeinfo
    rw [h]
    simp only [Bool.true_eq_false, if_false, Option.isSome_map']
    apply mapM_option_isSome
    intro fdef _
    rw [Option.isSome_map']
    exact arglist_isSome_of_not_method cfg fdef

/-- A module scope with one variable and one function for the C10 witness. -/
def modInfo : CodeInfo := ⟨["x"], [funX]⟩

/-- A configuration enabling `module.write-globals` for the C10 witness. -/
def cfgGlobals : Config := ⟨"", "", true, false, true, true, false, false, [], []⟩

/-- Witness for C10: no configuration fails the assertion; an enabling
configuration emits the block. -/
theorem print_codeinfo_requires_globals_witness :
    print_codeinfo Option.none modInfo = Option.none ∧
    (print_codeinfo (some cfgGlobals) modInfo).isSome = true :=
  ⟨print_codeinfo_requires_globals.1 Option.none modInfo rfl,
   print_codeinfo_requires_globals.2 (some cfgGlobals) modInfo rfl⟩

lemma commonLen_le_left : ∀ (s t : List String), commonLen s t ≤ s.length := by
  intro s
  induction s with
  | nil => intro t; simp [commonLen]
  | cons d ds ih =>
    intro t
    cases t with
    | nil => simp [commonLen]
    | cons x xs =>
      by_cases h : (d == x) = true
      · simp only [commonLen, h, if_true, List.length_cons]
        exact Nat.succ_le_succ (ih xs)
      · simp [commonLen, h]

lemma commonLen_le_right : ∀ (s t : List String), commonLen s t ≤ t.length := by
  intro s
  induction s with
  | nil => intro t; simp [commonLen]
  | cons d ds ih =>
    intro t
    cases t with
    | nil => simp [commonLen]
    | cons x xs =>
      by_cases h : (d == x) = true
      · simp only [commonLen, h, if_true, List.length_cons]
        exact Nat.succ_le_succ (ih xs)
      · simp [commonLen, h]

lemma take_commonLen : ∀ (s t : List String),
    s.take (commonLen s t) = t.take (commonLen s t) := by
  intro s
  induction s with
  | nil => intro t; simp [commonLen]
  | cons d ds ih =>
    intro t
    cases t with
    | nil => simp [commonLen]
    | cons x xs =>
      by_cases h : (d == x) = true
      · have hdx : d = x := eq_of_beq h
        subst hdx
        simp only [commonLen, beq_self_eq_true, if_true, List.take_succ_cons]
        rw [ih xs]
      · simp [commonLen, h]

lemma popNs_snd : ∀ (k : Nat) (ns : List String),
    (popNs k ns).2 = List.replicate k NsMarker.nsClose := by
  intro k
  induction k with
  | zero => intro ns; rfl
  | succ k ih =>
    intro ns
    simp only [popNs, ih, List.replicate_succ]

lemma popNs_fst : ∀ (k : Nat) (ns : List String), k ≤ ns.length →
    (popNs k ns).1 = ns.take (ns.length - k) := by
  intro k
  induction k with
  | zero => intro ns _; simp [popNs]
  | succ k ih =>
    intro ns h
    have hlen : ns.dropLast.length = ns.length - 1 := List.length_dropLast ns
    have hk : k ≤ ns.dropLast.length := by omega
    simp only [popNs]
    rw [ih ns.dropLast hk, hlen, List.dropLast_eq_take, List.take_take,
      min_eq_left (Nat.sub_le (ns.length - 1) k)]
    congr 1
    omega

lemma pushNsAll_eq : ∀ (ds ns : List String),
    pushNsAll ds ns = (ns ++ ds, ds.map NsMarker.nsOpen) := by
  intro ds
  induction ds with
  | nil => intro ns; simp [pushNsAll]
  | cons d ds ih =>
    intro ns
    have hdef : pushNsAll (d :: ds) ns =
        ((pushNsAll ds (ns ++ [d])).1, NsMarker.nsOpen d :: (pushNsAll ds (ns ++ [d])).2) := rfl
    rw [hdef, ih (ns ++ [d])]
    simp

lemma start_file_ns_eq (ns segs : List String) :
    start_file_ns ns segs =
      (segs,
        List.replicate (ns.length - commonLen ns segs) NsMarker.nsClose ++
          (segs.drop (commonLen ns segs)).map NsMarker.nsOpen) := by
  have h1 : ns.length - commonLen ns segs ≤ ns.length := Nat.sub_le _ _
  have hdef : start_file_ns ns segs =
      ((pushNsAll (segs.drop (commonLen ns segs))
          (popNs (ns.length - commonLen ns segs) ns).1).1,
        (popNs (ns.length - commonLen ns segs) ns).2 ++
          (pushNsAll (segs.drop (commonLen ns segs))
            (popNs (ns.length - commonLen ns segs) ns).1).2) := rfl
  rw [hdef, popNs_fst (ns.length - commonLen ns segs) ns h1, popNs_snd, pushNsAll_eq]
  have h2 : ns.length - (ns.length - commonLen ns segs) = commonLen ns segs := by
    have := commonLen_le_left ns segs
    omega
  rw [h2, take_commonLen ns segs, List.take_append_drop]

lemma countOpen_append (a b : List NsMarker) :
    countOpen (a ++ b) = countOpen a + countOpen b := by
  unfold countOpen
  rw [List.filter_append, List.length_append]

lemma countClose_append (a b : List NsMarker) :
    countClose (a ++ b) = countClose a + countClose b := by
  unfold countClose
  rw [List.filter_append, List.length_append]

lemma countOpen_replicate_close (k : Nat) :
    countOpen (List.replicate k NsMarker.nsClose) = 0 := by
  unfold countOpen
  induction k with
  | zero => rfl
  | succ k _ => simp [List.replicate_succ, List.filter, isOpenMarker]

lemma countClose_replicate_close (k : Nat) :
    countClose (List.replicate k NsMarker.nsClose) = k := by
  unfold countClose
  induction k with
  | zero => rfl
  | succ k _ => simp [List.replicate_succ, List.filter, isOpenMarker]

lemma countOpen_map_open (l : List String) :
    countOpen (l.map NsMarker.nsOpen) = l.length := by
  unfold countOpen
  induction l with
  | nil => rfl
  | cons x l ih => simpa [List.filter, isOpenMarker] using ih

lemma countClose_map_open (l : List String) :
    countClose (l.map NsMarker.nsOpen) = 0 := by
  unfold countClose
  induction l with
  | nil => rfl
  | cons x l _ => simp [List.filter, isOpenMarker]

/-- Claim C3: after `start_file` for a first path decomposition `xs` and then
for `ys`, with `n` the longest shared prefix length, the second call emits
exactly `xs.length - n` closing markers followed by exactly the opening
markers of the segments of `ys` past the prefix (none for any shared-prefix
segment), and afterwards the stack equals `ys`. -/
theorem start_file_shared_markers :
    ∀ (xs ys : List String),
      (start_file_ns (start_file_ns [] xs).1 ys).1 = ys ∧
      (start_file_ns (start_file_ns [] xs).1 ys).2 =
        List.replicate (xs.length - commonLen xs ys) NsMarker.nsClose ++
          (ys.drop (commonLen xs ys)).map NsMarker.nsOpen ∧
      countClose (start_file_ns (start_file_ns [] xs).1 ys).2 =
        xs.length - commonLen xs ys ∧
      countOpen (start_file_ns (start_file_ns [] xs).1 ys).2 =
        ys.length - commonLen xs ys := by
  intro xs ys
  have hfirst : (start_file_ns [] xs).1 = xs := by
    rw [start_file_ns_eq]
  rw [hfirst, start_file_ns_eq xs ys]
  refine ⟨rfl, rfl, ?_, ?_⟩
  · rw [countClose_append, countClose_replicate_close, countClose_map_open, Nat.add_zero]
  · rw [countOpen_append, countOpen_replicate_close, countOpen_map_open, List.length_drop,
      Nat.zero_add]

lemma runNS_invariant :
    ∀ (files : List (List String)) (s0 : List String) (ms0 : List NsMarker),
      countOpen ms0 = countClose ms0 + s0.length →
      countOpen (files.foldl stepFile (s0, ms0)).2 =
        countClose (files.foldl stepFile (s0, ms0)).2 +
          (files.foldl stepFile (s0, ms0)).1.length := by
  intro files
  induction files with
  | nil => intro s0 ms0 h; exact h
  | cons f files ih =>
    intro s0 ms0 h
    rw [List.foldl_cons]
    apply ih
    show countOpen (ms0 ++ (start_file_ns s0 f).2) =
      countClose (ms0 ++ (start_file_ns s0 f).2) + (start_file_ns s0 f).1.length
    rw [start_file_ns_eq s0 f]
    dsimp only
    rw [countOpen_append, countClose_append, countOpen_append, countClose_append,
      countOpen_replicate_close, countClose_replicate_close, countOpen_map_open,
      countClose_map_open, List.length_drop]
    have h1 := commonLen_le_left s0 f
    have h2 := commonLen_le_right s0 f
    omega

/-- Claim C4: across any run (any sequence of `start_file` calls followed by
`footer`), each popped segment emits exactly one closing marker and each
pushed segment exactly one opening marker carrying its name, and the total
numbers of opening and closing markers in the whole run are equal — `footer`
closes every namespace still open, so none is leaked. -/
theorem ns_open_close_balanced :
    (∀ files : List (List String),
      countOpen (fullRunMarkers files) = countClose (fullRunMarkers files)) ∧
    (∀ (k : Nat) (ns : List String),
      (popNs k ns).2 = List.replicate k NsMarker.nsClose) ∧
    (∀ (ds ns : List String),
      (pushNsAll ds ns).2 = ds.map NsMarker.nsOpen) := by
  refine ⟨?_, popNs_snd, fun ds ns => by rw [pushNsAll_eq]⟩
  intro files
  unfold fullRunMarkers runNS
  have hinv := runNS_invariant files [] [] rfl
  rw [countOpen_append, countClose_append, popNs_snd, countOpen_replicate_close,
    countClose_replicate_close]
  omega

/-- Replace only the declared defaults of a descriptor's parameter node. -/
def withDefaults (f : MethodDescriptor) (ds : List String) (ks : List (Option String)) :
    MethodDescriptor :=
  ⟨f.name, f.decorator_list,
    ⟨f.args.args, f.args.vararg, f.args.kwonlyargs, ks, f.args.kwarg, ds⟩, f.returns⟩

lemma is_static_withDefaults (f : MethodDescriptor) (ds : List String)
    (ks : List (Option String)) :
    is_static_method (withDefaults f ds ks) = is_static_method f := rfl

lemma args_withDefaults (f : MethodDescriptor) (ds : List String) (ks : List (Option String)) :
    (withDefaults f ds ks).args.args = f.args.args := rfl

lemma vararg_withDefaults (f : MethodDescriptor) (ds : List String) (ks : List (Option String)) :
    (withDefaults f ds ks).args.vararg = f.args.vararg := rfl

lemma kwonlyargs_withDefaults (f : MethodDescriptor) (ds : List String)
    (ks : List (Option String)) :
    (withDefaults f ds ks).args.kwonlyargs = f.args.kwonlyargs := rfl

lemma kwarg_withDefaults (f : MethodDescriptor) (ds : List String) (ks : List (Option String)) :
    (withDefaults f ds ks).args.kwarg = f.args.kwarg := rfl

/-- Every `ast.arg` node an `ast.arguments` node contains. -/
def argNodes (ar : Arguments) : List Arg :=
  ar.args ++ ar.vararg.toList ++ ar.kwonlyargs ++ ar.kwarg.toList

/-- Neither the parameter name nor the annotation text contains `=` (true of
every syntactically ordinary Python parameter). -/
def argNoEq (a : Arg) : Prop :=
  ('=' ∉ a.arg.data) ∧ ∀ t ∈ a.annot.toList, '=' ∉ t.data

instance (a : Arg) : Decidable (argNoEq a) := by
  unfold argNoEq
  infer_instance

lemma mem_joinComma (c : Char) :
    ∀ xs : List String, c ∈ (joinComma xs).data →
      c = ',' ∨ c = ' ' ∨ ∃ x ∈ xs, c ∈ x.data := by
  intro xs
  induction xs with
  | nil => intro h; exact absurd h (List.not_mem_nil c)
  | cons x rest ih =>
    cases rest with
    | nil =>
      intro h
      exact Or.inr (Or.inr ⟨x, List.mem_singleton_self x, h⟩)
    | cons y rest2 =>
      intro h
      have hd : (joinComma (x :: y :: rest2)).data =
          (x.data ++ (", " : String).data) ++ (joinComma (y :: rest2)).data := rfl
      rw [hd] at h
      rcases List.mem_append.mp h with h1 | h2
      · rcases List.mem_append.mp h1 with hx | hsep
        · exact Or.inr (Or.inr ⟨x, List.mem_cons_self x _, hx⟩)
        · have hsd : (", " : String).data = [',', ' '] := rfl
          rw [hsd] at hsep
          rcases List.mem_cons.mp hsep with hc | hc
          · exact Or.inl hc
          · exact Or.inr (Or.inl (List.mem_singleton.mp hc))
      · rcases ih h2 with hc | hc | ⟨z, hz, hcz⟩
        · exact Or.inl hc
        · exact Or.inr (Or.inl hc)
        · exact Or.inr (Or.inr ⟨z, List.mem_cons_of_mem x hz, hcz⟩)

lemma mem_rstrip (c : Char) (s : String) : c ∈ (rstrip s).data → c ∈ s.data := by
  intro h
  have h1 : c ∈ (s.data.reverse.dropWhile Char.isWhitespace).reverse := h
  rw [List.mem_reverse] at h1
  have h2 : c ∈ s.data.reverse :=
    List.Sublist.mem h1 (List.dropWhile_sublist Char.isWhitespace)
  rw [List.mem_reverse] at h2
  exact h2

lemma renderArg_no_eq (a : Arg) (h : argNoEq a) : '=' ∈ (renderArg a).data → False := by
  intro hm
  unfold renderArg at hm
  rw [String.data_append] at hm
  rcases List.mem_append.mp hm with h1 | h2
  · exact h.1 h1
  · cases ha : a.annot with
    | none =>
      rw [ha] at h2
      exact absurd h2 (List.not_mem_nil _)
    | some t =>
      rw [ha] at h2
      rw [String.data_append] at h2
      rcases List.mem_append.mp h2 with h3 | h4
      · have hsd : (": " : String).data = [':', ' '] := rfl
        rw [hsd] at h3
        exact absurd h3 (by decide)
      · exact h.2 t (by rw [ha]; exact List.mem_singleton_self t) h4

lemma renderArgDef_none_no_eq (a : Arg) (h : argNoEq a) :
    '=' ∈ (renderArgDef a Option.none).data → False := by
  intro hm
  unfold renderArgDef at hm
  rw [String.data_append] at hm
  rcases List.mem_append.mp hm with h1 | h2
  · exact renderArg_no_eq a h h1
  · exact absurd h2 (List.not_mem_nil _)

lemma star_no_eq (a : Arg) (h : argNoEq a) : '=' ∈ (("*" ++ renderArg a)).data → False := by
  intro hm
  rw [String.data_append] at hm
  rcases List.mem_append.mp hm with h1 | h2
  · exact absurd h1 (by decide)
  · exact renderArg_no_eq a h h2

lemma dstar_no_eq (a : Arg) (h : argNoEq a) : '=' ∈ (("**" ++ renderArg a)).data → False := by
  intro hm
  rw [String.data_append] at hm
  rcases List.mem_append.mp hm with h1 | h2
  · exact absurd h1 (by decide)
  · exact renderArg_no_eq a h h2

lemma render_no_eq (ar : Arguments)
    (h1 : ar.defaults = []) (h2 : ar.kw_defaults = [])
    (h3 : ∀ a ∈ argNodes ar, argNoEq a) :
    '=' ∈ (renderArguments ar).data → False := by
  intro hm
  have hmj : '=' ∈ (joinComma
      (((((ar.args.zip (padNone ar.args.length (ar.defaults.map some))).map
            (fun p => renderArgDef p.1 p.2) ++
          (match ar.vararg with
            | some a => ["*" ++ renderArg a]
            | Option.none => [])) ++
          (if !ar.kwonlyargs.isEmpty && ar.vararg.isNone then ["*"] else [])) ++
          (ar.kwonlyargs.zip (padNone ar.kwonlyargs.length ar.kw_defaults)).map
            (fun p => renderArgDef p.1 p.2)) ++
        (match ar.kwarg with
          | some a => ["**" ++ renderArg a]
          | Option.none => []))).data := hm
  rcases mem_joinComma '=' _ hmj with hc | hc | ⟨x, hx, hcx⟩
  · exact absurd hc (by decide)
  · exact absurd hc (by decide)
  · rcases List.mem_append.mp hx with hx4 | hkwarg
    · rcases List.mem_append.mp hx4 with hx3 | hkw
      · rcases List.mem_append.mp hx3 with hx2 | hstar
        · rcases List.mem_append.mp hx2 with hpos | hvar
          · obtain ⟨p, hp, hpx⟩ := List.mem_map.mp hpos
            rw [h1] at hp
            have hpad : padNone ar.args.length (List.map some ([] : List String)) =
                List.replicate ar.args.length Option.none := by
              simp [padNone]
            rw [hpad] at hp
            have hz := List.of_mem_zip hp
            have hd : p.2 = Option.none := List.eq_of_mem_replicate hz.2
            have hmemA : p.1 ∈ argNodes ar :=
              List.mem_append_left _ (List.mem_append_left _ (List.mem_append_left _ hz.1))
            rw [← hpx] at hcx
            rw [hd] at hcx
            exact renderArgDef_none_no_eq p.1 (h3 p.1 hmemA) hcx
          · cases hv : ar.vararg with
            | none => rw [hv] at hvar; exact absurd hvar (List.not_mem_nil _)
            | some a =>
              rw [hv] at hvar
              rw [List.mem_singleton.mp hvar] at hcx
              have hmemA : a ∈ argNodes ar := by
                apply List.mem_append_left
                apply List.mem_append_left
                apply List.mem_append_right
                rw [hv]
                exact List.mem_singleton_self a
              exact star_no_eq a (h3 a hmemA) hcx
        · by_cases hcond : (!ar.kwonlyargs.isEmpty && ar.vararg.isNone) = true
          · rw [if_pos hcond] at hstar
            rw [List.mem_singleton.mp hstar] at hcx
            exact absurd hcx (by decide)
          · rw [if_neg hcond] at hstar
            exact absurd hstar (List.not_mem_nil _)
      · obtain ⟨p, hp, hpx⟩ := List.mem_map.mp hkw
        rw [h2] at hp
        have hpad : padNone ar.kwonlyargs.length ([] : List (Option String)) =
            List.replicate ar.kwonlyargs.length Option.none := by
          simp [padNone]
        rw [hpad] at hp
        have hz := List.of_mem_zip hp
        have hd : p.2 = Option.none := List.eq_of_mem_replicate hz.2
        have hmemA : p.1 ∈ argNodes ar :=
          List.mem_append_left _ (List.mem_append_right _ hz.1)
        rw [← hpx] at hcx
        rw [hd] at hcx
        exact renderArgDef_none_no_eq p.1 (h3 p.1 hmemA) hcx
    · cases hv : ar.kwarg with
      | none => rw [hv] at hkwarg; exact absurd hkwarg (List.not_mem_nil _)
      | some a =>
        rw [hv] at hkwarg
        rw [List.mem_singleton.mp hkwarg] at hcx
        have hmemA : a ∈ argNodes ar := by
          apply List.mem_append_right
          rw [hv]
          exact List.mem_singleton_self a
        exact dstar_no_eq a (h3 a hmemA) hcx

lemma argNodes_clear (ar : Arguments) :
    argNodes ⟨ar.args, ar.vararg, ar.kwonlyargs, [], ar.kwarg, []⟩ = argNodes ar := rfl

lemma argNodes_tail (hd : Arg) (rest : List Arg) (ar : Arguments) (h : ar.args = hd :: rest) :
    ∀ a : Arg, a ∈ argNodes ⟨rest, ar.vararg, ar.kwonlyargs, [], ar.kwarg, []⟩ →
      a ∈ argNodes ar := by
  intro a ha
  unfold argNodes at ha ⊢
  rw [h]
  dsimp only at ha
  rcases List.mem_append.mp ha with h3 | hkwg
  · rcases List.mem_append.mp h3 with h2 | hkw
    · rcases List.mem_append.mp h2 with hr | hv
      · exact List.mem_append_left _ (List.mem_append_left _
          (List.mem_append_left _ (List.mem_cons_of_mem hd hr)))
      · exact List.mem_append_left _ (List.mem_append_left _ (List.mem_append_right _ hv))
    · exact List.mem_append_left _ (List.mem_append_right _ hkw)
  · exact List.mem_append_right _ hkwg

/-- Claim C6: with omit-defaults enabled for the relevant section, the
rendered argument list contains no default-value text: the result does not
depend on the declared positional or keyword default expressions (they are
cleared before rendering), and the returned string contains no `=`
character, given that the parameter names and annotations contain none
themselves. -/
theorem arglist_omit_defaults_no_default_text :
    ∀ (cfg : Option Config) (fdef : MethodDescriptor) (ismethod : Bool),
      pyTruthy (opt_omit_defaults cfg (sectOf ismethod)) = true →
      ((∀ (ds : List String) (ks : List (Option String)),
          (arglist cfg (withDefaults fdef ds ks) ismethod).map Prod.fst =
            (arglist cfg (withDefaults fdef [] []) ismethod).map Prod.fst) ∧
        (∀ s, (arglist cfg fdef ismethod).map Prod.fst = some s →
          (∀ a ∈ argNodes fdef.args, argNoEq a) → ('=' ∈ s.data → False))) := by
  intro cfg fdef m hod
  constructor
  · intro ds ks
    cases hw : opt_write_arglist cfg (sectOf m) <;>
      cases m <;>
        cases hts : pyTruthy (opt_omit_self cfg) <;>
          cases hst : is_static_method fdef <;>
            cases hargs : fdef.args.args <;>
              simp [arglist, deepcopyArguments, is_static_withDefaults, args_withDefaults,
                vararg_withDefaults, kwonlyargs_withDefaults, kwarg_withDefaults,
                hw, hod, hts, hst, hargs]
  · intro s hs hnoeq hmem
    by_cases hw : opt_write_arglist cfg (sectOf m) = false
    · have he : arglist cfg fdef m = some ("", fdef) := by
        unfold arglist
        rw [if_pos hw]
      rw [he] at hs
      have hse : ("" : String) = s := by simpa using hs
      rw [← hse] at hmem
      exact absurd hmem (by decide)
    · by_cases hpop : (m && pyTruthy (opt_omit_self cfg) && !(is_static_method fdef)) = true
      · cases hargs : fdef.args.args with
        | nil =>
          have he : arglist cfg fdef m = Option.none := by
            simp [arglist, deepcopyArguments, hw, hpop, hargs]
          rw [he] at hs
          exact absurd hs (by simp)
        | cons hd rest =>
          have he : arglist cfg fdef m =
              some (rstrip (renderArguments ⟨rest, fdef.args.vararg, fdef.args.kwonlyargs, [],
                fdef.args.kwarg, []⟩), fdef) := by
            simp [arglist, deepcopyArguments, hw, hpop, hargs, hod]
          rw [he] at hs
          have hse : rstrip (renderArguments ⟨rest, fdef.args.vararg, fdef.args.kwonlyargs, [],
              fdef.args.kwarg, []⟩) = s := by simpa using hs
          rw [← hse] at hmem
          exact render_no_eq _ rfl rfl
            (fun a ha => hnoeq a (argNodes_tail hd rest fdef.args hargs a ha))
            (mem_rstrip '=' _ hmem)
      · have he : arglist cfg fdef m =
            some (rstrip (renderArguments ⟨fdef.args.args, fdef.args.vararg,
              fdef.args.kwonlyargs, [], fdef.args.kwarg, []⟩), fdef) := by
          simp [arglist, deepcopyArguments, hw, hpop, hod]
        rw [he] at hs
        have hse : rstrip (renderArguments ⟨fdef.args.args, fdef.args.vararg,
            fdef.args.kwonlyargs, [], fdef.args.kwarg, []⟩) = s := by simpa using hs
        rw [← hse] at hmem
        refine render_no_eq _ rfl rfl ?_ (mem_rstrip '=' _ hmem)
        intro a ha
        apply hnoeq
        rw [← argNodes_clear fdef.args]
        exact ha

/-- A configuration with omit-defaults enabled everywhere, for the C6
witness. -/
def cfgOmitDefaults : Config := ⟨"", "", false, false, true, true, true, true, [], []⟩

/-- Witness for C6 at a concrete method: the declared default `1` leaves no
trace, and the rendered `x` contains no `=`. -/
theorem arglist_omit_defaults_no_default_text_witness :
    ((arglist (some cfgOmitDefaults) (withDefaults funX ["1"] []) true).map Prod.fst =
      (arglist (some cfgOmitDefaults) (withDefaults funX [] []) true).map Prod.fst) ∧
    ('=' ∈ ("x" : String).data → False) := by
  have T := arglist_omit_defaults_no_default_text (some cfgOmitDefaults) funX true (by decide)
  exact ⟨T.1 ["1"] [], T.2 "x" (by decide) (by decide)⟩

end Py2Puml
